import Mathlib

/-!
Verification development for the season-aggregation pipeline of
`fantasy_dashboard.py` (column resolution, row normalization, per-owner
aggregation, leaderboard ranking).

The pandas program is embedded shallowly:

* CSV cells are `Option String` (`none` models a missing/NaN cell).
* pandas floats are modelled by exact rationals `ℚ`; the special values
  produced by float division (`NaN`, `±inf`) are modelled by the
  `PFloat` type, since `0/0` gives `NaN` and `x/0` gives `±inf` in pandas.
* `Series.round(k)` is modelled by rounding to `k` decimal places with
  round-half-up (binary floats make exact half-way ties essentially
  unreachable, so the tie-breaking mode is immaterial here).
* `DataFrame.sort_values` on several keys uses a stable lexicographic
  sort (`numpy.lexsort`); it is modelled by `List.insertionSort` with a
  non-strict comparison, which is stable in the same way.
* `groupby(sort=True)` enumerates group keys in ascending order; it is
  modelled by sorting the deduplicated owner list.
-/

namespace Fantasy

/-! ### Python string primitives

The Python string methods used by the source (`strip`, `lower`, `upper`,
code-point comparison for `sorted`) are modelled directly on the character
lists underlying `String`. -/

/-- `str.strip()`: drop whitespace from both ends. -/
def stripChars (cs : List Char) : List Char :=
  ((cs.dropWhile Char.isWhitespace).reverse.dropWhile Char.isWhitespace).reverse

def pstrip (s : String) : String := String.mk (stripChars s.data)

/-- `str.upper()` (ASCII case mapping). -/
def pupper (s : String) : String := String.mk (s.data.map Char.toUpper)

/-- `str.lower()` (ASCII case mapping). -/
def plower (s : String) : String := String.mk (s.data.map Char.toLower)

/-- Lexicographic code-point comparison, as Python compares strings. -/
def strLtChars : List Char → List Char → Bool
  | [], [] => false
  | [], _ :: _ => true
  | _ :: _, [] => false
  | a :: as, b :: bs => if a = b then strLtChars as bs else decide (a < b)

def strLt (a b : String) : Bool := strLtChars a.data b.data

def strLe (a b : String) : Bool := !(strLt b a)

abbrev strLeRel (a b : String) : Prop := strLe a b = true

/-! ### Column resolution (`norm`, `pick_col`, `missing`, lines 29-69) -/

/-- `norm` from the source: `str(s).strip().lower().replace("﻿", "")`
(the replace removes every byte-order mark). -/
def norm (s : String) : String :=
  String.mk (((stripChars s.data).map Char.toLower).filter (fun ch => ch ≠ Char.ofNat 0xFEFF))

/-- `normalized_map` lookup: the dict comprehension `{norm(c): c for c in df.columns}`
keeps the LAST column whose normalized form is a given key, so we search the
reversed header list. -/
def normLookup (headers : List String) (key : String) : Option String :=
  (headers.reverse).find? (fun h => norm h == norm key)

/-- `pick_col`: first candidate alias whose normalized form matches a header;
returns the original header name. -/
def pick_col (headers : List String) : List String → Option String
  | [] => none
  | cand :: rest =>
    match normLookup headers cand with
    | some h => some h
    | none => pick_col headers rest

def ownerAliases : List String := ["Owner(s)", "Owners", "Owner", "Username", "Team Owner"]
def seasonAliases : List String := ["Season", "FF Year", "Year"]
def champAliases : List String := ["Fantasy Champ", "Champion", "Champ", "Is Champ"]
def winsAliases : List String := ["Wins", "W", "Win", "Total Wins"]
def lossesAliases : List String := ["Losses", "L", "Loss", "Total Losses"]
def pfAliases : List String := ["PF", "Points For", "PointsFor", "Pts For", "Total PF"]
def paAliases : List String := ["PA", "Points Against", "PointsAgainst", "Pts Against", "Total PA"]
def txAliases : List String := ["Transactions", "Total Transactions", "Moves", "Total Moves"]

/-- The `required` dict (lines 53-62), in insertion order. -/
def requiredFields : List (String × List String) :=
  [("Owner(s)", ownerAliases), ("Season", seasonAliases), ("Fantasy Champ", champAliases),
   ("Wins", winsAliases), ("Losses", lossesAliases), ("PF", pfAliases), ("PA", paAliases),
   ("Transactions", txAliases)]

/-- `missing = [k for k, v in required.items() if v is None]`. -/
def missingFields (headers : List String) : List String :=
  (requiredFields.filter (fun p => (pick_col headers p.2).isNone)).map (fun p => p.1)

/-! ### Numeric/string cell primitives -/

def digitsVal (cs : List Char) : Nat :=
  cs.foldl (fun a c => a * 10 + (c.toNat - 48)) 0

/-- `pd.to_numeric(x, errors="coerce")` on a string cell: optional sign,
decimal digits, optional fractional part; anything else coerces to `none`
(pandas `NaN`). -/
def parseNum (s : String) : Option ℚ :=
  let cs := stripChars s.data
  let signBody : Bool × List Char :=
    match cs with
    | '-' :: rest => (true, rest)
    | '+' :: rest => (false, rest)
    | rest => (false, rest)
  let neg := signBody.1
  let body := signBody.2
  let intPart := body.takeWhile (fun ch => ch.isDigit)
  let rest1 := body.dropWhile (fun ch => ch.isDigit)
  match rest1 with
  | [] =>
    if intPart.isEmpty then none
    else some (if neg then -(digitsVal intPart : ℚ) else (digitsVal intPart : ℚ))
  | '.' :: fr =>
    let frac := fr.takeWhile (fun ch => ch.isDigit)
    let rest2 := fr.dropWhile (fun ch => ch.isDigit)
    if !rest2.isEmpty then none
    else if intPart.isEmpty && frac.isEmpty then none
    else
      let v : ℚ := (digitsVal intPart : ℚ) + (digitsVal frac : ℚ) / (10 : ℚ) ^ frac.length
      some (if neg then -v else v)
  | _ => none

/-- `.str.extract(r"(\d{4})")`: the first position where four consecutive
digits occur (regex search semantics), as a number. -/
def extract4Go : List Char → Option Nat
  | [] => none
  | a :: rest =>
    match rest with
    | b :: c :: d :: _ =>
      if a.isDigit && b.isDigit && c.isDigit && d.isDigit then
        some (digitsVal [a, b, c, d])
      else extract4Go rest
    | _ => none

def extract4 (s : String) : Option Nat :=
  extract4Go s.data

/-- `pd.to_numeric(col, errors="coerce").fillna(0)` on one cell. -/
def coerceNum (c : Option String) : ℚ :=
  (c.bind parseNum).getD 0

/-! ### pandas float special values (for the division-derived columns) -/

/-- A pandas float64 cell value: a finite number, `±inf`, or `NaN`. -/
inductive PFloat where
  | num (q : ℚ)
  | ninf
  | pinf
  | nan
deriving DecidableEq

/-- Float division as pandas performs it: `0/0 = NaN`, `x/0 = ±inf`. -/
def pdiv (a b : ℚ) : PFloat :=
  if b = 0 then
    (if a = 0 then PFloat.nan else if 0 < a then PFloat.pinf else PFloat.ninf)
  else PFloat.num (a / b)

/-- `.fillna(0)`: replaces only `NaN`, not infinities. -/
def PFloat.fillna0 : PFloat → PFloat
  | PFloat.nan => PFloat.num 0
  | x => x

/-- Rounding a rational to `k` decimal places (model of `Series.round(k)`
on finite values; round-half-up stands in for float round-half-even,
which differs only on exact ties). -/
def roundQ (k : Nat) (q : ℚ) : ℚ :=
  (((q * (10 : ℚ) ^ k + 1 / 2).floor : ℤ) : ℚ) / (10 : ℚ) ^ k

/-- `Series.round(k)`: infinities and `NaN` round to themselves. -/
def PFloat.roundP (k : Nat) : PFloat → PFloat
  | PFloat.num q => PFloat.num (roundQ k q)
  | x => x

/-! ### Row normalization (the `work` dataframe, lines 74-97) -/

/-- One raw CSV row, projected onto the eight resolved columns. -/
structure RawCells where
  owner : Option String
  season : Option String
  champ : Option String
  wins : Option String
  losses : Option String
  pf : Option String
  pa : Option String
  tx : Option String
deriving DecidableEq

/-- A canonical row of the `work` dataframe. -/
structure CRow where
  owner : String
  season : Option String
  isChamp : Bool
  wins : ℚ
  losses : ℚ
  pf : ℚ
  pa : ℚ
  tx : ℚ
  seasonYear : Option Nat
deriving DecidableEq

/-- `df[champ_col].fillna("").astype(str).str.strip().str.upper()`. -/
def champFlagNorm (c : Option String) : String :=
  pupper (pstrip (c.getD ""))

/-- Building one `work` row.  `astype(str)` renders a missing cell as the
literal string `"nan"` (which trims to `"nan"` and contains no digit run,
so `Season_Year` extraction still fails on it). -/
def normalizeRow (c : RawCells) : CRow :=
  { owner := pstrip (c.owner.getD "nan")
  , season := c.season
  , isChamp := champFlagNorm c.champ == "Y"
  , wins := coerceNum c.wins
  , losses := coerceNum c.losses
  , pf := coerceNum c.pf
  , pa := coerceNum c.pa
  , tx := coerceNum c.tx
  , seasonYear := extract4 ((c.season.getD "nan")) }

/-- The raw CSV: a header row and data rows of optional cells. -/
structure RawTable where
  headers : List String
  rows : List (List (Option String))
deriving DecidableEq

/-- `df[col]` for one row: the cell under the (original) header `col`. -/
def cellAt (headers : List String) (row : List (Option String)) (col : String) : Option String :=
  match headers.indexOf? col with
  | some i => (row.get? i).join
  | none => none

def resolvedCell (headers : List String) (row : List (Option String))
    (cands : List String) : Option String :=
  (pick_col headers cands).bind (fun c => cellAt headers row c)

def rawCellsFrom (headers : List String) (row : List (Option String)) : RawCells :=
  { owner := resolvedCell headers row ownerAliases
  , season := resolvedCell headers row seasonAliases
  , champ := resolvedCell headers row champAliases
  , wins := resolvedCell headers row winsAliases
  , losses := resolvedCell headers row lossesAliases
  , pf := resolvedCell headers row pfAliases
  , pa := resolvedCell headers row paAliases
  , tx := resolvedCell headers row txAliases }

/-- The full `work` dataframe: exactly one canonical row per raw row. -/
def normalizeTable (t : RawTable) : List CRow :=
  t.rows.map (fun row => normalizeRow (rawCellsFrom t.headers row))

/-! ### Aggregation (lines 108-187) -/

/-- The modern-era filter `work["Season_Year"].fillna(0) >= 2014`. -/
def modernRow (r : CRow) : Bool :=
  2014 ≤ r.seasonYear.getD 0

/-- `champ_years` (lines 113-120): champion rows with a present season,
season labels sorted, comma-joined. -/
def champ_years (g : List CRow) : String :=
  String.intercalate ", "
    (List.insertionSort strLeRel
      ((g.filter (fun r => r.isChamp)).filterMap (fun r => r.season)))

/-- `champ_points` (lines 122-133): champion rows with a derivable 4-digit
year; years before 2014 are worth 25, years at/after 2014 are worth 50. -/
def champ_points (g : List CRow) : Nat :=
  let seasons := (g.filter (fun r => r.isChamp)).filterMap (fun r => r.season.bind extract4)
  (seasons.filter (fun y => y < 2014)).length * 25 +
    (seasons.filter (fun y => 2014 ≤ y)).length * 50

/-- One row of the merged `agg` dataframe (champ columns from all seasons,
stat columns from 2014+ rows with `fillna(0)`, plus the derived columns). -/
structure OwnerSummary where
  owner : String
  championships : Nat
  championshipPoints : Nat
  championshipYears : String
  totalWins : ℚ
  totalLosses : ℚ
  totalPF : ℚ
  totalPA : ℚ
  totalTx : ℚ
  seasonsPlayed : Nat
  games : ℚ
  winPct : PFloat
  pfPerTx : PFloat
deriving DecidableEq

/-- The `agg` row for one owner: group by exact owner string, champ columns
over all of the group, stat sums over the modern (2014+) sub-group; an owner
with no modern rows gets `0` everywhere a left-merge would leave `NaN`
(`fillna(0)`, lines 172-180). -/
def mkSummary (work : List CRow) (o : String) : OwnerSummary :=
  let g := work.filter (fun r => r.owner == o)
  let gm := g.filter (fun r => modernRow r)
  let tw := (gm.map (fun r => r.wins)).sum
  let tl := (gm.map (fun r => r.losses)).sum
  let tpf := (gm.map (fun r => r.pf)).sum
  let tpa := (gm.map (fun r => r.pa)).sum
  let ttx := (gm.map (fun r => r.tx)).sum
  { owner := o
  , championships := (g.filter (fun r => r.isChamp)).length
  , championshipPoints := champ_points g
  , championshipYears := champ_years g
  , totalWins := tw
  , totalLosses := tl
  , totalPF := tpf
  , totalPA := tpa
  , totalTx := ttx
  , seasonsPlayed := ((gm.filterMap (fun r => r.seasonYear)).dedup).length
  , games := tw + tl
  , winPct := PFloat.roundP 3 (PFloat.fillna0 (pdiv tw (tw + tl)))
  , pfPerTx := PFloat.roundP 2 (pdiv tpf (max ttx 1)) }

/-- `groupby("Owner(s)")` with the default `sort=True`: the distinct owner
strings in ascending order. -/
def ownerKeys (work : List CRow) : List String :=
  List.insertionSort strLeRel ((work.map (fun r => r.owner)).dedup)

/-- The merged `agg` dataframe before the final sort. -/
def aggTable (work : List CRow) : List OwnerSummary :=
  (ownerKeys work).map (mkSummary work)

/-! ### Leaderboard sort (line 248) -/

/-- Rank of a `PFloat` in the order used for sorting: `-inf < finite < +inf < NaN`. -/
def PFloat.rk : PFloat → Nat
  | PFloat.ninf => 0
  | PFloat.num _ => 1
  | PFloat.pinf => 2
  | PFloat.nan => 3

/-- Strict comparison of float cells as `sort_values` orders them. -/
def PFloat.ltP : PFloat → PFloat → Bool
  | PFloat.num a, PFloat.num b => decide (a < b)
  | x, y => decide (x.rk < y.rk)

/-- `a` may be placed (weakly) before `b` under
`sort_values(by=["Championships", "Win %", "Total_Wins"], ascending=False)`:
the three-part key of `a` is lexicographically at least that of `b`. -/
def lbLe (a b : OwnerSummary) : Bool :=
  decide (b.championships < a.championships) ||
    ((b.championships == a.championships) &&
      (PFloat.ltP b.winPct a.winPct ||
        ((b.winPct == a.winPct) && decide (b.totalWins ≤ a.totalWins))))

abbrev sortRel (a b : OwnerSummary) : Prop := lbLe a b = true

/-- The displayed leaderboard: a stable descending sort of `agg` on
(Championships, Win %, Total_Wins).  `sort_values` with several keys uses
`numpy.lexsort`, which is stable; `insertionSort` with the non-strict
relation `sortRel` is stable in the same sense. -/
def leaderboard (work : List CRow) : List OwnerSummary :=
  List.insertionSort sortRel (aggTable work)

/-- The whole pipeline: halt with the missing logical fields and the full
header list if any required column is unresolved (lines 64-69), otherwise
normalize, aggregate and sort. -/
def runPipeline (t : RawTable) : Except (List String × List String) (List OwnerSummary) :=
  if missingFields t.headers = [] then Except.ok (leaderboard (normalizeTable t))
  else Except.error (missingFields t.headers, t.headers)

/-- Convenience constructor used by the concrete test tables below. -/
def mkRow (o se ch w l p q tx0 : String) : CRow :=
  normalizeRow
    { owner := some o, season := some se, champ := some ch, wins := some w,
      losses := some l, pf := some p, pa := some q, tx := some tx0 }

end Fantasy

namespace Fantasy

/-- Equality of the three sort keys. -/
def lbKeyEq (a b : OwnerSummary) : Bool :=
  a.championships == b.championships && a.winPct == b.winPct &&
    a.totalWins == b.totalWins

/-- The property the final leaderboard satisfies between any earlier row `a`
and later row `b`: the sort key of `a` is at least that of `b`, and rows with
equal keys are in ascending owner-name order (the order `groupby` produced,
which the stable sort preserves). -/
def lbStable (a b : OwnerSummary) : Prop :=
  lbLe a b = true ∧ (lbKeyEq a b = true → strLt a.owner b.owner = true)

/-! ### Concrete input tables used to instantiate the claims -/

/-- A header row with no recognizable wins column. -/
def exTableC1 : RawTable :=
  { headers := ["Owner(s)", "Season", "Fantasy Champ", "Losses", "PF", "PA", "Transactions"]
  , rows := [[some "A", some "2014", some "Y", some "2", some "100", some "90", some "10"]] }

/-- Owner X with championships in seasons 2012 and 2015. -/
def exRowsC2 : List CRow :=
  [mkRow "X" "2012" "Y" "" "" "" "" "", mkRow "X" "2015" "Y" "" "" "" "" ""]

/-- Owner A with 1 win and 2 losses in a modern season. -/
def exRowsC3 : List CRow :=
  [mkRow "A" "2014" "" "1" "2" "1" "0" "3"]

/-- Owner A with coerced wins -5 and losses 5 (games total 0). -/
def exRowsC3neg : List CRow :=
  [mkRow "A" "2014" "" "-5" "5" "0" "0" "0"]

/-- A (2 championships, win rate 0.5) and B (1 championship, win rate 0.9). -/
def exRowsC4 : List CRow :=
  [mkRow "A" "2014" "Y" "1" "1" "0" "0" "0",
   mkRow "A" "2015" "Y" "0" "0" "0" "0" "0",
   mkRow "B" "2014" "Y" "9" "1" "0" "0" "0"]

/-- B before A in the input, with identical stats everywhere. -/
def exRowsC4cex : List CRow :=
  [mkRow "B" "2014" "" "1" "1" "0" "0" "0",
   mkRow "A" "2014" "" "1" "1" "0" "0" "0"]

/-- A row whose champion cell is missing. -/
def exCellsC6 : RawCells :=
  { owner := some "A", season := some "2014", champ := none, wins := some "1",
    losses := some "1", pf := some "0", pa := some "0", tx := some "0" }

/-- A row whose wins cell is unparseable text. -/
def exCellsC7 : RawCells :=
  { owner := some "A", season := some "2014", champ := some "", wins := some "abc",
    losses := some "1", pf := some "0", pa := some "0", tx := some "0" }

/-- A whitespace-only owner cell and a negative wins cell. -/
def exCellsC9 : RawCells :=
  { owner := some " ", season := some "2014", champ := some "", wins := some "-5",
    losses := some "0", pf := some "0", pa := some "0", tx := some "0" }

/-- A well-formed row with non-negative wins. -/
def exCellsC9w : RawCells :=
  { owner := some "A", season := some "2014", champ := some "", wins := some "3",
    losses := some "0", pf := some "0", pa := some "0", tx := some "0" }

/-- Owner A whose PF total is 1 and transaction total is 3. -/
def exRowsC8 : List CRow :=
  [mkRow "A" "2014" "" "0" "0" "1" "0" "3"]

/-- An owner whose only row is from 2010, before the modern cutoff. -/
def exRowsC10 : List CRow :=
  [mkRow "Old" "2010" "Y" "" "" "" "" ""]

/-! ### Order lemmas for the Python string comparison -/

lemma strLtChars_irrefl : ∀ cs : List Char, strLtChars cs cs = false
  | [] => rfl
  | a :: as => by simp [strLtChars, strLtChars_irrefl as]

lemma strLtChars_asymm : ∀ as bs : List Char,
    strLtChars as bs = true → strLtChars bs as = false
  | [], [] => by simp [strLtChars]
  | [], _ :: _ => by simp [strLtChars]
  | _ :: _, [] => by simp [strLtChars]
  | a :: as, b :: bs => by
    by_cases h : a = b
    · subst h
      simp only [strLtChars, if_pos rfl]
      exact strLtChars_asymm as bs
    · have h2 : ¬ b = a := fun e => h e.symm
      simp only [strLtChars, if_neg h, if_neg h2, decide_eq_true_eq,
        decide_eq_false_iff_not]
      exact fun hlt => lt_asymm hlt

lemma strLtChars_eq_of : ∀ as bs : List Char,
    strLtChars as bs = false → strLtChars bs as = false → as = bs
  | [], [] => by intro _ _; rfl
  | [], _ :: _ => by simp [strLtChars]
  | _ :: _, [] => by simp [strLtChars]
  | a :: as, b :: bs => by
    by_cases h : a = b
    · subst h
      simp only [strLtChars, if_pos rfl]
      intro h1 h2
      exact congrArg (List.cons a) (strLtChars_eq_of as bs h1 h2)
    · have h2 : ¬ b = a := fun e => h e.symm
      simp only [strLtChars, if_neg h, if_neg h2, decide_eq_false_iff_not]
      intro h1 h2'
      exact absurd (le_antisymm (not_lt.1 h2') (not_lt.1 h1)) h

lemma strLtChars_nil_right : ∀ bs : List Char, strLtChars bs [] = false := by
  intro bs
  cases bs <;> simp [strLtChars]

lemma strLtChars_trans : ∀ as bs cs : List Char,
    strLtChars as bs = true → strLtChars bs cs = true → strLtChars as cs = true
  | [], bs, [] => by
    intro _ h2
    rw [strLtChars_nil_right bs] at h2
    cases h2
  | [], [], _ :: _ => by simp [strLtChars]
  | [], _ :: _, _ :: _ => by simp [strLtChars]
  | _ :: _, [], _ => by simp [strLtChars]
  | _ :: _, _ :: _, [] => by simp [strLtChars]
  | a :: as, b :: bs, c :: cs => by
    by_cases hab : a = b
    · subst hab
      by_cases hac : a = c
      · subst hac
        simp only [strLtChars, if_pos rfl]
        exact strLtChars_trans as bs cs
      · simp only [strLtChars, if_pos rfl, if_neg hac]
        exact fun _ h2 => h2
    · by_cases hbc : b = c
      · subst hbc
        simp only [strLtChars, if_neg hab]
        exact fun h1 _ => h1
      · by_cases hac : a = c
        · subst hac
          simp only [strLtChars, if_neg hab, if_neg hbc, decide_eq_true_eq]
          intro h1 h2
          exact absurd (lt_trans h1 h2) (lt_irrefl a)
        · simp only [strLtChars, if_neg hab, if_neg hbc, if_neg hac,
            decide_eq_true_eq]
          exact fun h1 h2 => lt_trans h1 h2

lemma strLt_asymm {a b : String} (h : strLt a b = true) : strLt b a = false :=
  strLtChars_asymm _ _ h

lemma strLt_eq_of {a b : String} (h1 : strLt a b = false) (h2 : strLt b a = false) :
    a = b := by
  cases a with
  | mk da =>
    cases b with
    | mk db => exact congrArg String.mk (strLtChars_eq_of da db h1 h2)

lemma strLt_trans {a b c : String} (h1 : strLt a b = true) (h2 : strLt b c = true) :
    strLt a c = true :=
  strLtChars_trans _ _ _ h1 h2

lemma strLe_total (a b : String) : strLe a b = true ∨ strLe b a = true := by
  by_cases h : strLt b a = true
  · right
    simp [strLe, strLt_asymm h]
  · left
    simp only [strLe, Bool.not_eq_true] at *
    simp [h]

lemma strLe_trans {a b c : String} (h1 : strLe a b = true) (h2 : strLe b c = true) :
    strLe a c = true := by
  simp only [strLe, Bool.not_eq_true', Bool.not_eq_true] at *
  by_cases hca : strLt c a = true
  · by_cases hbc : strLt b c = true
    · exact absurd (strLt_trans hbc hca) (by simp [h1])
    · have : b = c := strLt_eq_of (by simpa using hbc) h2
      subst this
      exact absurd hca (by simp [h1])
  · simpa using hca

lemma strLt_of_le_of_ne {a b : String} (h : strLe a b = true) (hne : a ≠ b) :
    strLt a b = true := by
  by_cases hlt : strLt a b = true
  · exact hlt
  · have hba : strLt b a = false := by
      simp only [strLe, Bool.not_eq_true'] at h
      exact h
    exact absurd (strLt_eq_of (by simpa using hlt) hba) hne

instance : IsTotal String strLeRel := ⟨strLe_total⟩

instance : IsTrans String strLeRel := ⟨fun _ _ _ => strLe_trans⟩

end Fantasy

namespace Fantasy

/-! ### Rounding lemmas -/

lemma ratFloor_eq_intFloor (x : ℚ) : (x.floor : ℤ) = ⌊x⌋ := by
  rw [Rat.floor_def', Rat.floor_def]

lemma roundQ_eq (k : Nat) (q : ℚ) :
    roundQ k q = ((⌊q * (10 : ℚ) ^ k + 1 / 2⌋ : ℤ) : ℚ) / (10 : ℚ) ^ k := by
  rw [roundQ, ratFloor_eq_intFloor]

lemma roundQ_nonneg {k : Nat} {q : ℚ} (h : 0 ≤ q) : 0 ≤ roundQ k q := by
  rw [roundQ_eq]
  have hp : (0 : ℚ) < (10 : ℚ) ^ k := by positivity
  have hfl : (0 : ℤ) ≤ ⌊q * (10 : ℚ) ^ k + 1 / 2⌋ := by
    apply Int.floor_nonneg.2
    have : (0 : ℚ) ≤ q * (10 : ℚ) ^ k := mul_nonneg h (le_of_lt hp)
    linarith
  exact div_nonneg (by exact_mod_cast hfl) (le_of_lt hp)

lemma roundQ_le_one {k : Nat} {q : ℚ} (h : q ≤ 1) : roundQ k q ≤ 1 := by
  rw [roundQ_eq]
  have hp : (0 : ℚ) < (10 : ℚ) ^ k := by positivity
  have hfl : ⌊q * (10 : ℚ) ^ k + 1 / 2⌋ < (10 ^ k : ℤ) + 1 := by
    apply Int.floor_lt.2
    push_cast
    have : q * (10 : ℚ) ^ k ≤ 1 * (10 : ℚ) ^ k :=
      mul_le_mul_of_nonneg_right h (le_of_lt hp)
    linarith
  have hfl2 : ⌊q * (10 : ℚ) ^ k + 1 / 2⌋ ≤ (10 ^ k : ℤ) := Int.lt_add_one_iff.1 hfl
  rw [div_le_one hp]
  exact_mod_cast hfl2

lemma roundQ_zero (k : Nat) : roundQ k 0 = 0 := by
  rw [roundQ_eq]
  have : ⌊(0 : ℚ) * (10 : ℚ) ^ k + 1 / 2⌋ = 0 := by
    rw [zero_mul, zero_add]
    rw [Int.floor_eq_zero_iff]
    constructor <;> norm_num
  rw [this]
  norm_num

/-! ### Order lemmas for `PFloat` comparison and the leaderboard key -/

lemma ltP_asymm {x y : PFloat} (h : PFloat.ltP x y = true) :
    PFloat.ltP y x = false := by
  cases x <;> cases y <;>
    simp_all [PFloat.ltP, PFloat.rk] <;>
    exact le_of_lt h

lemma ltP_eq_of {x y : PFloat} (h1 : PFloat.ltP x y = false)
    (h2 : PFloat.ltP y x = false) : x = y := by
  cases x <;> cases y <;> simp_all [PFloat.ltP, PFloat.rk]
  exact le_antisymm h2 h1

lemma ltP_trans {x y z : PFloat} (h1 : PFloat.ltP x y = true)
    (h2 : PFloat.ltP y z = true) : PFloat.ltP x z = true := by
  cases x <;> cases y <;> cases z <;>
    simp_all [PFloat.ltP, PFloat.rk] <;>
    exact lt_trans h1 h2

end Fantasy

namespace Fantasy

/-! ### The three-key leaderboard order -/

lemma lbLe_iff {a b : OwnerSummary} : lbLe a b = true ↔
    (b.championships < a.championships ∨
      (b.championships = a.championships ∧
        (PFloat.ltP b.winPct a.winPct = true ∨
          (b.winPct = a.winPct ∧ b.totalWins ≤ a.totalWins)))) := by
  simp [lbLe, Bool.or_eq_true, Bool.and_eq_true, decide_eq_true_eq, beq_iff_eq]

lemma lbLe_total (a b : OwnerSummary) : lbLe a b = true ∨ lbLe b a = true := by
  rw [lbLe_iff, lbLe_iff]
  rcases Nat.lt_trichotomy a.championships b.championships with h | h | h
  · right
    exact Or.inl h
  · by_cases hw : PFloat.ltP a.winPct b.winPct = true
    · right
      exact Or.inr ⟨h, Or.inl hw⟩
    · by_cases hw2 : PFloat.ltP b.winPct a.winPct = true
      · left
        exact Or.inr ⟨h.symm, Or.inl hw2⟩
      · have hwe : a.winPct = b.winPct :=
          ltP_eq_of (by simpa using hw) (by simpa using hw2)
        rcases le_total a.totalWins b.totalWins with ht | ht
        · right
          exact Or.inr ⟨h, Or.inr ⟨hwe, ht⟩⟩
        · left
          exact Or.inr ⟨h.symm, Or.inr ⟨hwe.symm, ht⟩⟩
  · left
    exact Or.inl h

lemma lbLe_of_not {a b : OwnerSummary} (h : lbLe a b = false) : lbLe b a = true :=
  (lbLe_total a b).resolve_left (by simp [h])

lemma lbLe_trans {a b c : OwnerSummary} (h1 : lbLe a b = true)
    (h2 : lbLe b c = true) : lbLe a c = true := by
  rw [lbLe_iff] at h1 h2 ⊢
  rcases h1 with h1 | ⟨h1e, h1w⟩
  · rcases h2 with h2 | ⟨h2e, _⟩
    · exact Or.inl (lt_trans h2 h1)
    · exact Or.inl (h2e ▸ h1)
  · rcases h2 with h2 | ⟨h2e, h2w⟩
    · exact Or.inl (h1e ▸ h2)
    · refine Or.inr ⟨h2e.trans h1e, ?_⟩
      rcases h1w with h1w | ⟨h1we, h1wt⟩
      · rcases h2w with h2w | ⟨h2we, _⟩
        · exact Or.inl (ltP_trans h2w h1w)
        · exact Or.inl (h2we ▸ h1w)
      · rcases h2w with h2w | ⟨h2we, h2wt⟩
        · exact Or.inl (h1we ▸ h2w)
        · exact Or.inr ⟨h2we.trans h1we, le_trans h2wt h1wt⟩

lemma lbKeyEq_iff {a b : OwnerSummary} : lbKeyEq a b = true ↔
    (a.championships = b.championships ∧ a.winPct = b.winPct ∧
      a.totalWins = b.totalWins) := by
  simp [lbKeyEq, Bool.and_eq_true, beq_iff_eq, and_assoc]

lemma lbKeyEq_symm {a b : OwnerSummary} (h : lbKeyEq a b = true) :
    lbKeyEq b a = true := by
  rw [lbKeyEq_iff] at h ⊢
  exact ⟨h.1.symm, h.2.1.symm, h.2.2.symm⟩

lemma lbLe_of_keyEq {a b : OwnerSummary} (h : lbKeyEq a b = true) :
    lbLe a b = true := by
  rw [lbKeyEq_iff] at h
  rw [lbLe_iff]
  exact Or.inr ⟨h.1.symm, Or.inr ⟨h.2.1.symm, le_of_eq h.2.2.symm⟩⟩

lemma pairwise_orderedInsert_lb (x : OwnerSummary) :
    ∀ l : List OwnerSummary, l.Pairwise lbStable →
      (∀ y ∈ l, strLt x.owner y.owner = true) →
      (List.orderedInsert sortRel x l).Pairwise lbStable := by
  intro l
  induction l with
  | nil =>
    intro _ _
    simp [List.orderedInsert, lbStable]
  | cons b l ih =>
    intro hp hx
    rcases List.pairwise_cons.1 hp with ⟨hb, hl⟩
    rw [List.orderedInsert]
    by_cases h : sortRel x b
    · rw [if_pos h]
      refine List.pairwise_cons.2 ⟨?_, hp⟩
      intro z hz
      rcases List.mem_cons.1 hz with rfl | hz
      · exact ⟨h, fun _ => hx z (List.mem_cons_self z l)⟩
      · exact ⟨lbLe_trans h (hb z hz).1, fun _ => hx z (List.mem_cons_of_mem b hz)⟩
    · rw [if_neg h]
      have hxb : lbLe x b = false := by
        simpa [sortRel] using h
      refine List.pairwise_cons.2 ⟨?_, ?_⟩
      · intro z hz
        rcases (List.mem_orderedInsert sortRel).1 hz with rfl | hz
        · refine ⟨lbLe_of_not hxb, fun hk => ?_⟩
          exact absurd (lbLe_of_keyEq (lbKeyEq_symm hk)) (by simp [hxb])
        · exact hb z hz
      · exact ih hl (fun y hy => hx y (List.mem_cons_of_mem b hy))

lemma pairwise_insertionSort_lb :
    ∀ l : List OwnerSummary,
      l.Pairwise (fun a b => strLt a.owner b.owner = true) →
      (List.insertionSort sortRel l).Pairwise lbStable := by
  intro l
  induction l with
  | nil =>
    intro _
    simp [List.insertionSort]
  | cons a l ih =>
    intro hp
    rcases List.pairwise_cons.1 hp with ⟨ha, hl⟩
    rw [List.insertionSort]
    refine pairwise_orderedInsert_lb a _ (ih hl) ?_
    intro y hy
    exact ha y ((List.mem_insertionSort sortRel).1 hy)

end Fantasy

namespace Fantasy

/-! ### Aggregate-table structure lemmas -/

lemma mkSummary_owner (work : List CRow) (o : String) :
    (mkSummary work o).owner = o := rfl

lemma ownerKeys_nodup (work : List CRow) : (ownerKeys work).Nodup :=
  ((List.perm_insertionSort strLeRel _).symm).nodup
    ((work.map (fun r => r.owner)).nodup_dedup)

lemma mem_ownerKeys {work : List CRow} {o : String} :
    o ∈ ownerKeys work ↔ o ∈ work.map (fun r => r.owner) := by
  rw [ownerKeys, List.mem_insertionSort, List.mem_dedup]

lemma ownerKeys_sorted (work : List CRow) :
    (ownerKeys work).Pairwise strLeRel :=
  List.sorted_insertionSort strLeRel _

lemma ownerKeys_pairwise_lt (work : List CRow) :
    (ownerKeys work).Pairwise (fun a b => strLt a b = true) := by
  have h1 := ownerKeys_sorted work
  have h2 : (ownerKeys work).Pairwise (fun a b : String => a ≠ b) :=
    ownerKeys_nodup work
  exact (h1.and h2).imp (fun h => strLt_of_le_of_ne h.1 h.2)

lemma aggTable_owners (work : List CRow) :
    (aggTable work).map (fun s => s.owner) = ownerKeys work := by
  rw [aggTable, List.map_map]
  have h : ((fun s : OwnerSummary => s.owner) ∘ mkSummary work) = id := by
    funext o
    exact mkSummary_owner work o
  rw [h, List.map_id]

lemma aggTable_pairwise_owner (work : List CRow) :
    (aggTable work).Pairwise (fun a b => strLt a.owner b.owner = true) := by
  rw [aggTable]
  exact (ownerKeys_pairwise_lt work).map (mkSummary work)
    (fun a b h => by
      rw [mkSummary_owner, mkSummary_owner]
      exact h)

/-! ### Sum helpers -/

lemma sum_map_filter (p : CRow → Bool) (f : CRow → ℚ) :
    ∀ l : List CRow,
      ((l.filter p).map f).sum = (l.map (fun r => if p r then f r else 0)).sum := by
  intro l
  induction l with
  | nil => simp
  | cons a l ih =>
    by_cases h : p a
    · simp [List.filter_cons, h, ih]
    · simp [List.filter_cons, h, ih]

lemma sum_map_nonneg {l : List CRow} {f : CRow → ℚ}
    (h : ∀ r ∈ l, 0 ≤ f r) : 0 ≤ (l.map f).sum := by
  apply List.sum_nonneg
  intro x hx
  rcases List.mem_map.1 hx with ⟨r, hr, rfl⟩
  exact h r hr

lemma mem_of_mem_filter2 {l : List CRow} {p q : CRow → Bool} {r : CRow}
    (h : r ∈ (l.filter p).filter q) : r ∈ l :=
  List.mem_filter.1 ((List.mem_filter.1 h).1) |>.1

end Fantasy

namespace Fantasy

set_option maxRecDepth 200000

/-! ### Further helper lemmas for the claims -/

lemma weight_sum : ∀ ys : List Nat,
    ((ys.map (fun y => if y < 2014 then 25 else 50)).sum : Nat) =
      (ys.filter (fun y => y < 2014)).length * 25 +
        (ys.filter (fun y => 2014 ≤ y)).length * 50 := by
  intro ys
  induction ys with
  | nil => simp
  | cons a l ih =>
    by_cases h : a < 2014
    · have h2 : ¬ 2014 ≤ a := by omega
      simp [List.filter_cons, h, h2, ih]
      omega
    · have h2 : 2014 ≤ a := by omega
      simp [List.filter_cons, h, h2, ih]
      omega

lemma coerceNum_nonneg {x : Option String}
    (h : ∀ q : ℚ, x.bind parseNum = some q → 0 ≤ q) : 0 ≤ coerceNum x := by
  rw [coerceNum]
  cases hx : x.bind parseNum with
  | none => simp
  | some q => simpa using h q hx

lemma winPct_cases {W L : ℚ} (hW : 0 ≤ W) (hL : 0 ≤ L) :
    (W + L = 0 → PFloat.roundP 3 (PFloat.fillna0 (pdiv W (W + L))) = PFloat.num 0) ∧
    (0 < W + L → PFloat.roundP 3 (PFloat.fillna0 (pdiv W (W + L))) =
      PFloat.num (roundQ 3 (W / (W + L)))) ∧
    (∃ q : ℚ, PFloat.roundP 3 (PFloat.fillna0 (pdiv W (W + L))) = PFloat.num q ∧
      0 ≤ q ∧ q ≤ 1) := by
  rcases eq_or_lt_of_le (add_nonneg hW hL) with hG | hG
  · have h1 : W + L = 0 := hG.symm
    have hW0 : W = 0 := by linarith
    have hL0 : L = 0 := by linarith
    have hval : PFloat.roundP 3 (PFloat.fillna0 (pdiv W (W + L))) = PFloat.num 0 := by
      subst hW0
      subst hL0
      simp [pdiv, PFloat.fillna0, PFloat.roundP, roundQ_zero]
    refine ⟨fun _ => hval, fun hc => absurd h1 (ne_of_gt hc), 0, hval, le_refl 0,
      by norm_num⟩
  · have hne : W + L ≠ 0 := ne_of_gt hG
    have hval : PFloat.roundP 3 (PFloat.fillna0 (pdiv W (W + L))) =
        PFloat.num (roundQ 3 (W / (W + L))) := by
      simp only [pdiv, if_neg hne, PFloat.fillna0, PFloat.roundP]
    refine ⟨fun hc => absurd hc hne, fun _ => hval,
      roundQ 3 (W / (W + L)), hval, ?_, ?_⟩
    · exact roundQ_nonneg (div_nonneg hW (le_of_lt hG))
    · exact roundQ_le_one ((div_le_one hG).2 (by linarith))

/-! ### Claim theorems -/

/-- C1: if any of the eight required logical fields resolves to no actual
header under the normalized alias matching, the pipeline halts with an error
naming exactly the unresolved fields together with all headers present, and
no aggregate output is produced; the missing list contains a field name
exactly when every alias of that field fails to resolve. -/
theorem c1_missing_columns_halt (t : RawTable) :
    (missingFields t.headers ≠ [] →
      runPipeline t = Except.error (missingFields t.headers, t.headers)) ∧
    (∀ f, f ∈ missingFields t.headers ↔
      ∃ p ∈ requiredFields, p.1 = f ∧ pick_col t.headers p.2 = none) := by
  constructor
  · intro h
    rw [runPipeline, if_neg h]
  · intro f
    simp only [missingFields, List.mem_map, List.mem_filter,
      Option.isNone_iff_eq_none]
    constructor
    · rintro ⟨p, ⟨hp, hnone⟩, rfl⟩
      exact ⟨p, hp, rfl, hnone⟩
    · rintro ⟨p, hp, rfl, hnone⟩
      exact ⟨p, ⟨hp, hnone⟩, rfl⟩

/-- Witness for C1: a table with no wins column halts with exactly
`["Wins"]` missing and the original header list reported. -/
theorem c1_missing_columns_halt_witness :
    missingFields exTableC1.headers ≠ [] ∧
      runPipeline exTableC1 = Except.error (["Wins"], exTableC1.headers) := by
  have h : missingFields exTableC1.headers = ["Wins"] := by decide
  refine ⟨by simp [h], ?_⟩
  have hrun := (c1_missing_columns_halt exTableC1).1 (by simp [h])
  rw [hrun, h]

/-- C2: for every owner group, `champ_points` is the sum over championship
rows with a derivable four-digit year of 25 (year before 2014) or 50 (year
at/after 2014); rows without a derivable year are excluded.  In particular
championships in seasons 2012 and 2015 are worth 75. -/
theorem c2_championship_points :
    (∀ g : List CRow, champ_points g =
      (((g.filter (fun r => r.isChamp)).filterMap
          (fun r => r.season.bind extract4)).map
        (fun y => if y < 2014 then 25 else 50)).sum) ∧
    (mkSummary exRowsC2 "X").championshipPoints = 75 := by
  constructor
  · intro g
    rw [champ_points]
    exact (weight_sum _).symm
  · with_unfolding_all decide

/-- C6: `is_champion` holds iff the champion cell, stripped and uppercased,
is exactly `"Y"`; a missing cell gives `false`. -/
theorem c6_is_champion_iff (c : RawCells) :
    ((normalizeRow c).isChamp = true ↔ pupper (pstrip (c.champ.getD "")) = "Y") ∧
    (c.champ = none → (normalizeRow c).isChamp = false) := by
  constructor
  · show (champFlagNorm c.champ == "Y") = true ↔ _
    rw [champFlagNorm]
    exact beq_iff_eq
  · intro h
    show (champFlagNorm c.champ == "Y") = false
    rw [h]
    decide

/-- Witness for C6: a concrete row with a missing champion cell is not a
champion. -/
theorem c6_is_champion_iff_witness :
    exCellsC6.champ = none ∧ (normalizeRow exCellsC6).isChamp = false :=
  ⟨rfl, (c6_is_champion_iff exCellsC6).2 rfl⟩

/-- C7: normalization produces exactly one canonical row per raw row, each
numeric field is coerced independently, and a missing or unparseable cell
becomes exactly zero. -/
theorem c7_value_coercion :
    (∀ t : RawTable, (normalizeTable t).length = t.rows.length) ∧
    (∀ c : RawCells,
      ((normalizeRow c).wins = coerceNum c.wins ∧
       (normalizeRow c).losses = coerceNum c.losses ∧
       (normalizeRow c).pf = coerceNum c.pf ∧
       (normalizeRow c).pa = coerceNum c.pa ∧
       (normalizeRow c).tx = coerceNum c.tx) ∧
      ((c.wins.bind parseNum = none → (normalizeRow c).wins = 0) ∧
       (c.losses.bind parseNum = none → (normalizeRow c).losses = 0) ∧
       (c.pf.bind parseNum = none → (normalizeRow c).pf = 0) ∧
       (c.pa.bind parseNum = none → (normalizeRow c).pa = 0) ∧
       (c.tx.bind parseNum = none → (normalizeRow c).tx = 0))) := by
  refine ⟨fun t => List.length_map _ _, fun c => ⟨⟨rfl, rfl, rfl, rfl, rfl⟩, ?_⟩⟩
  refine ⟨fun h => ?_, fun h => ?_, fun h => ?_, fun h => ?_, fun h => ?_⟩ <;>
  · show coerceNum _ = 0
    rw [coerceNum, h]
    rfl

/-- Witness for C7: a concrete unparseable wins cell coerces to zero. -/
theorem c7_value_coercion_witness :
    exCellsC7.wins.bind parseNum = none ∧ (normalizeRow exCellsC7).wins = 0 := by
  have h : exCellsC7.wins.bind parseNum = none := by decide
  exact ⟨h, (c7_value_coercion.2 exCellsC7).2.1 h⟩

end Fantasy

namespace Fantasy

set_option maxRecDepth 200000

/-- C3 (amended): for every owner summary, `games = total_wins + total_losses`
always; and whenever all contributing rows have non-negative coerced wins and
losses, the Win % column is `0` when `games = 0`, is the quotient
`total_wins / games` rounded to three decimals when `games > 0` (the source
applies `.round(3)`, so the column is the rounded quotient, not the exact
one), and always lies in `[0, 1]` as a finite number. -/
theorem c3_win_rate (work : List CRow) (o : String) :
    (mkSummary work o).games =
      (mkSummary work o).totalWins + (mkSummary work o).totalLosses ∧
    ((∀ r ∈ work, 0 ≤ r.wins ∧ 0 ≤ r.losses) →
      ((mkSummary work o).games = 0 → (mkSummary work o).winPct = PFloat.num 0) ∧
      (0 < (mkSummary work o).games →
        (mkSummary work o).winPct =
          PFloat.num (roundQ 3
            ((mkSummary work o).totalWins / (mkSummary work o).games))) ∧
      (∃ q : ℚ, (mkSummary work o).winPct = PFloat.num q ∧ 0 ≤ q ∧ q ≤ 1)) := by
  refine ⟨rfl, fun h => ?_⟩
  have hW : 0 ≤ (mkSummary work o).totalWins := by
    apply sum_map_nonneg
    intro r hr
    exact (h r (mem_of_mem_filter2 hr)).1
  have hL : 0 ≤ (mkSummary work o).totalLosses := by
    apply sum_map_nonneg
    intro r hr
    exact (h r (mem_of_mem_filter2 hr)).2
  exact winPct_cases hW hL

/-- Witness for C3: the amended statement evaluated on one owner with 1 win
and 2 losses. -/
theorem c3_win_rate_witness :
    (∀ r ∈ exRowsC3, 0 ≤ r.wins ∧ 0 ≤ r.losses) ∧
    (0 < (mkSummary exRowsC3 "A").games →
      (mkSummary exRowsC3 "A").winPct =
        PFloat.num (roundQ 3 ((mkSummary exRowsC3 "A").totalWins /
          (mkSummary exRowsC3 "A").games))) := by
  have h : ∀ r ∈ exRowsC3, 0 ≤ r.wins ∧ 0 ≤ r.losses := by
    with_unfolding_all decide
  exact ⟨h, ((c3_win_rate exRowsC3 "A").2 h).2.1⟩

/-- Counterexample to C3 as stated: with 1 win and 2 losses the Win % column
holds `0.333`, which is not the exact quotient `1/3 = total_wins / games`;
and with coerced wins `-5` and losses `5` (games = 0) the column is `-inf`
rather than `0`, escaping `[0, 1]`, because coercion does not clamp
negative cells. -/
theorem c3_win_rate_cex :
    ((mkSummary exRowsC3 "A").winPct = PFloat.num (333 / 1000) ∧
     PFloat.num ((333 : ℚ) / 1000) ≠
       PFloat.num ((mkSummary exRowsC3 "A").totalWins /
         (mkSummary exRowsC3 "A").games)) ∧
    ((mkSummary exRowsC3neg "A").games = 0 ∧
     (mkSummary exRowsC3neg "A").winPct = PFloat.ninf) := by
  with_unfolding_all decide

/-- C4 (amended): the leaderboard is the aggregate table sorted by
championships, then Win %, then total wins, all descending; owners equal on
all three keys appear in ascending owner-name order (the aggregation step
enumerates owners in sorted order and the sort is stable), not in raw-input
order.  In particular an owner with (2 championships, 0.5 win rate) ranks
above one with (1 championship, 0.9 win rate). -/
theorem c4_leaderboard_order :
    (∀ work : List CRow,
      List.Perm (leaderboard work) (aggTable work) ∧
      (leaderboard work).Pairwise lbStable) ∧
    (leaderboard exRowsC4).map (fun s => s.owner) = ["A", "B"] := by
  refine ⟨fun work => ⟨List.perm_insertionSort sortRel _, ?_⟩, ?_⟩
  · exact pairwise_insertionSort_lb _ (aggTable_pairwise_owner work)
  · with_unfolding_all decide

/-- Counterexample to C4 as stated: two owners tied on every key appear in
owner-name order A, B even though the raw input lists B first, so ties are
not in input order. -/
theorem c4_leaderboard_order_cex :
    exRowsC4cex.map (fun r => r.owner) = ["B", "A"] ∧
    (leaderboard exRowsC4cex).map (fun s => s.owner) = ["A", "B"] := by
  with_unfolding_all decide

/-- C5: the five stat totals come from the owner rows whose derived year is
at/after the 2014 cutoff only (a pre-cutoff or year-less row contributes 0),
while championships, championship points and championship years are computed
over all of the owner rows regardless of the cutoff. -/
theorem c5_era_split (work : List CRow) (o : String) :
    (mkSummary work o).totalWins =
      ((work.filter (fun r => r.owner == o)).map
        (fun r => if modernRow r then r.wins else 0)).sum ∧
    (mkSummary work o).totalLosses =
      ((work.filter (fun r => r.owner == o)).map
        (fun r => if modernRow r then r.losses else 0)).sum ∧
    (mkSummary work o).totalPF =
      ((work.filter (fun r => r.owner == o)).map
        (fun r => if modernRow r then r.pf else 0)).sum ∧
    (mkSummary work o).totalPA =
      ((work.filter (fun r => r.owner == o)).map
        (fun r => if modernRow r then r.pa else 0)).sum ∧
    (mkSummary work o).totalTx =
      ((work.filter (fun r => r.owner == o)).map
        (fun r => if modernRow r then r.tx else 0)).sum ∧
    (mkSummary work o).championships =
      ((work.filter (fun r => r.owner == o)).filter (fun r => r.isChamp)).length ∧
    (mkSummary work o).championshipPoints =
      champ_points (work.filter (fun r => r.owner == o)) ∧
    (mkSummary work o).championshipYears =
      champ_years (work.filter (fun r => r.owner == o)) :=
  ⟨sum_map_filter _ _ _, sum_map_filter _ _ _, sum_map_filter _ _ _,
   sum_map_filter _ _ _, sum_map_filter _ _ _, rfl, rfl, rfl⟩

end Fantasy

namespace Fantasy

set_option maxRecDepth 200000

/-- C8 (amended): the PF-per-transaction column is the quotient
`total_PF / max(total_transactions, 1)` rounded to two decimals (the source
applies `.round(2)`, so the column is the rounded quotient, not the exact
one); the clipped denominator is at least 1, so the division is an ordinary
finite division — never `NaN` and never an infinity. -/
theorem c8_pf_per_transaction (work : List CRow) (o : String) :
    (mkSummary work o).pfPerTx =
      PFloat.num (roundQ 2 ((mkSummary work o).totalPF /
        max (mkSummary work o).totalTx 1)) ∧
    (1 : ℚ) ≤ max (mkSummary work o).totalTx 1 ∧
    pdiv (mkSummary work o).totalPF (max (mkSummary work o).totalTx 1) =
      PFloat.num ((mkSummary work o).totalPF /
        max (mkSummary work o).totalTx 1) := by
  have hd : max (mkSummary work o).totalTx 1 ≠ 0 := by
    have h1 := le_max_right (mkSummary work o).totalTx (1 : ℚ)
    intro h
    rw [h] at h1
    linarith
  have hdiv : pdiv (mkSummary work o).totalPF (max (mkSummary work o).totalTx 1) =
      PFloat.num ((mkSummary work o).totalPF /
        max (mkSummary work o).totalTx 1) := by
    simp only [pdiv, if_neg hd]
  refine ⟨?_, le_max_right _ _, hdiv⟩
  show PFloat.roundP 2 (pdiv (mkSummary work o).totalPF
    (max (mkSummary work o).totalTx 1)) = _
  rw [hdiv]
  rfl

/-- Counterexample to C8 as stated: with PF total 1 and transaction total 3
the column holds `0.33`, which is not the exact quotient `1/3`. -/
theorem c8_pf_per_transaction_cex :
    (mkSummary exRowsC8 "A").pfPerTx = PFloat.num (33 / 100) ∧
    PFloat.num ((33 : ℚ) / 100) ≠
      PFloat.num ((mkSummary exRowsC8 "A").totalPF /
        max (mkSummary exRowsC8 "A").totalTx 1) := by
  with_unfolding_all decide

/-- C9 (amended): every raw row yields exactly one canonical row whose owner
is the stripped owner cell (so it is empty for a whitespace-only cell, and a
missing cell is rendered as the string `nan` by `astype(str)`); each numeric
field is the cell coercion, which is non-negative whenever the cell does not
parse to a negative number (missing/unparseable cells give 0), but negative
input values are passed through un-clamped. -/
theorem c9_row_invariants (c : RawCells) :
    (normalizeRow c).owner = pstrip (c.owner.getD "nan") ∧
    ((∀ q : ℚ, c.wins.bind parseNum = some q → 0 ≤ q) →
      0 ≤ (normalizeRow c).wins) ∧
    ((∀ q : ℚ, c.losses.bind parseNum = some q → 0 ≤ q) →
      0 ≤ (normalizeRow c).losses) ∧
    ((∀ q : ℚ, c.pf.bind parseNum = some q → 0 ≤ q) →
      0 ≤ (normalizeRow c).pf) ∧
    ((∀ q : ℚ, c.pa.bind parseNum = some q → 0 ≤ q) →
      0 ≤ (normalizeRow c).pa) ∧
    ((∀ q : ℚ, c.tx.bind parseNum = some q → 0 ≤ q) →
      0 ≤ (normalizeRow c).tx) :=
  ⟨rfl, fun h => coerceNum_nonneg h, fun h => coerceNum_nonneg h,
   fun h => coerceNum_nonneg h, fun h => coerceNum_nonneg h,
   fun h => coerceNum_nonneg h⟩

/-- Witness for C9: the amended statement evaluated on a row whose wins cell
parses to 3. -/
theorem c9_row_invariants_witness :
    (∀ q : ℚ, exCellsC9w.wins.bind parseNum = some q → 0 ≤ q) ∧
    0 ≤ (normalizeRow exCellsC9w).wins := by
  have h : ∀ q : ℚ, exCellsC9w.wins.bind parseNum = some q → 0 ≤ q := by
    intro q hq
    have he : exCellsC9w.wins.bind parseNum = some (3 : ℚ) := by
      with_unfolding_all decide
    rw [he] at hq
    injection hq with h3
    rw [← h3]
    norm_num
  exact ⟨h, (c9_row_invariants exCellsC9w).2.1 h⟩

/-- Counterexample to C9 as stated: a whitespace-only owner cell normalizes
to the empty owner string, and a `-5` wins cell stays negative after
coercion. -/
theorem c9_row_invariants_cex :
    (normalizeRow exCellsC9).owner = "" ∧ (normalizeRow exCellsC9).wins < 0 := by
  with_unfolding_all decide

/-- C10: every distinct trimmed owner string of the canonical rows appears
exactly once in the aggregated table, and an owner none of whose rows pass
the modern-era filter (all pre-2014 or year-less) still appears, with all
five stat totals, seasons played, games and Win % filled in as zero. -/
theorem c10_every_owner_once (work : List CRow) :
    ((aggTable work).map (fun s => s.owner)).Nodup ∧
    (∀ o : String, o ∈ (aggTable work).map (fun s => s.owner) ↔
      o ∈ work.map (fun r => r.owner)) ∧
    (∀ o : String,
      (work.filter (fun r => r.owner == o)).filter (fun r => modernRow r) = [] →
        (mkSummary work o).totalWins = 0 ∧
        (mkSummary work o).totalLosses = 0 ∧
        (mkSummary work o).totalPF = 0 ∧
        (mkSummary work o).totalPA = 0 ∧
        (mkSummary work o).totalTx = 0 ∧
        (mkSummary work o).seasonsPlayed = 0 ∧
        (mkSummary work o).games = 0 ∧
        (mkSummary work o).winPct = PFloat.num 0) := by
  refine ⟨?_, fun o => ?_, fun o h => ?_⟩
  · rw [aggTable_owners]
    exact ownerKeys_nodup work
  · rw [aggTable_owners]
    exact mem_ownerKeys
  · simp only [mkSummary, h]
    norm_num [pdiv, PFloat.fillna0, PFloat.roundP, roundQ_zero]

/-- Witness for C10: an owner whose only row is from 2010 gets zero stat
totals, zero games and Win % zero. -/
theorem c10_every_owner_once_witness :
    ((exRowsC10.filter (fun r => r.owner == "Old")).filter
      (fun r => modernRow r) = []) ∧
    (mkSummary exRowsC10 "Old").totalWins = 0 ∧
    (mkSummary exRowsC10 "Old").seasonsPlayed = 0 ∧
    (mkSummary exRowsC10 "Old").games = 0 ∧
    (mkSummary exRowsC10 "Old").winPct = PFloat.num 0 := by
  have h : (exRowsC10.filter (fun r => r.owner == "Old")).filter
      (fun r => modernRow r) = [] := by
    with_unfolding_all decide
  have hc := (c10_every_owner_once exRowsC10).2.2 "Old" h
  exact ⟨h, hc.1, hc.2.2.2.2.2.1, hc.2.2.2.2.2.2.1, hc.2.2.2.2.2.2.2⟩

end Fantasy
